import Mathlib

/-!
# Verification of the `analyze_results.py` bidding-analysis pipeline

This file gives a shallow embedding, in Lean 4, of the core of
`src/packages/ai-simulator/analyze_results.py`: the data model for game
records, the sample extractor (`collect_samples`), and the aggregator
primitives (`mean`, `histogram`, `groupby`, `normalize_trump`,
`calculate_bid_stats`, the auction-dynamics split, the score metrics and
the CSV export row), together with theorems settling the specification
claims about them.

Modelling conventions:
* Python dict keys read with `.get(k)` / `.get(k, default)` become
  `Option` fields; the default is applied at the use site with `getD`,
  mirroring each call.
* Python dict keys read with direct indexing `d[k]` (which raises
  `KeyError` when absent) are modelled in `Except String`: `collectGame`
  returns `.error` exactly where the Python code raises.
* Numbers are `Int`/`Nat`; percentages, means and rates are `ℚ`
  (the Python floats in play are exact small rationals, and the histogram
  is applied to integer-valued errors, so `ℚ` loses nothing).
* Seats produced by `enumerate` are `Nat`; seat values read out of
  records (`ba.get('seat', 0)`, `trump_selector`, `winner`) are kept at
  the types the surrounding comparisons need, as noted per field.
-/

namespace AnalyzeResults

/-- One entry of a round's `bid_accuracy` list.  Every key is read with
`ba.get(...)` in the source, hence every field is optional.  `seat` is a
seat index (0–3 per the data model), modelled as `Nat`. -/
structure BidAcc where
  seat : Option Nat
  bid : Option Int
  tricks : Option Int
  exact : Option Bool
  underbid : Option Bool
  overbid : Option Bool
deriving DecidableEq

/-- A round record.  All keys are read with `round_data.get(...)` in
`collect_samples`, hence all fields are optional; `none` models an
absent key (and, for `trump`, also an explicit JSON `null`). -/
structure Round where
  hand_size : Option Int
  dealer : Option Int
  trump : Option String
  trump_selector : Option Int
  bids : Option (List (Option Int))
  tricks_won : Option (List Int)
  bid_accuracy : Option (List BidAcc)
  scores : Option (List Int)
deriving DecidableEq

/-- The `config` block of a game record. -/
structure GameConfig where
  ai_types : Option (List String)
deriving DecidableEq

/-- The `result` block of a game record.  `winner` is compared against
seat indices but can hold any integer; `final_scores` is *not* checked
by the validator yet is read with direct indexing by the extractor. -/
structure GameResult where
  winner : Option Int
  final_scores : Option (List Int)
deriving DecidableEq

/-- A parsed game record as it reaches `validate_game_structure` /
`collect_samples`.  Top-level keys may be absent. -/
structure Game where
  game_id : Option Nat
  config : Option GameConfig
  result : Option GameResult
  rounds : Option (List Round)
deriving DecidableEq

/-- A flat bid sample, one per `bid_accuracy` entry of a round
(the dict literal built at lines 281–297 of the source). -/
structure BidSample where
  ai_type : String
  game_id : Nat
  round_index : Nat
  hand_size : Int
  seat : Nat
  bid : Int
  actual_tricks : Int
  error : Int
  abs_error : Int
  trump : Option String
  dealer : Option Int
  highest_bidder : Option Bool
  chose_trump : Option Bool
  exact : Bool
  round_score : Int
deriving DecidableEq

/-- A flat game sample, one per (game, seat) (lines 234–240). -/
structure GameSample where
  ai_type : String
  game_id : Nat
  seat : Nat
  won : Bool
  final_score : Int
deriving DecidableEq

/-- `mean(values)`: `0.0` on the empty list, else `sum / len`. -/
def mean (values : List ℚ) : ℚ :=
  if values.length = 0 then 0 else values.sum / values.length

/-- `normalize_trump`: `None`, `"NoTrumps"` (Debug) and `"NO_TRUMPS"`
(serde) all collapse to `"No Trumps"`; anything else passes through. -/
def normalize_trump (trump_val : Option String) : String :=
  match trump_val with
  | none => "No Trumps"
  | some s => if s = "NoTrumps" ∨ s = "NO_TRUMPS" then "No Trumps" else s

/-- The statistics dictionary produced by `calculate_bid_stats`
(the `median`/`stddev`/`rmse` figures are computed by the callers and
involve no claim, so they are not fields here). -/
structure BidStats where
  n : Nat
  errors : List Int
  abs_errors : List Int
  bids : List Int
  actuals : List Int
  exact_count : Nat
  over_count : Nat
  under_count : Nat
  exact_pct : ℚ
  over_pct : ℚ
  under_pct : ℚ
  mean_bid : ℚ
  mean_actual : ℚ
  mean_err : ℚ
  mae : ℚ
deriving DecidableEq

/-- `calculate_bid_stats(group)` (source lines 98–143).  Note that
`exact_count` counts the samples whose stored `exact` *flag* is set
(`sum(1 for s in group if s['exact'])`), while `over_count`/`under_count`
are derived from the sign of `error`. -/
def calculate_bid_stats (group : List BidSample) : BidStats :=
  let n := group.length
  let exact_count := (group.filter (fun s => s.exact)).length
  let over_count := (group.filter (fun s => decide (s.error < 0))).length
  let under_count := (group.filter (fun s => decide (s.error > 0))).length
  { n := n
    errors := group.map (fun s => s.error)
    abs_errors := group.map (fun s => s.abs_error)
    bids := group.map (fun s => s.bid)
    actuals := group.map (fun s => s.actual_tricks)
    exact_count := exact_count
    over_count := over_count
    under_count := under_count
    exact_pct := if 0 < n then (exact_count : ℚ) / n * 100 else 0
    over_pct := if 0 < n then (over_count : ℚ) / n * 100 else 0
    under_pct := if 0 < n then (under_count : ℚ) / n * 100 else 0
    mean_bid := mean (group.map (fun s => (s.bid : ℚ)))
    mean_actual := mean (group.map (fun s => (s.actual_tricks : ℚ)))
    mean_err := mean (group.map (fun s => (s.error : ℚ)))
    mae := mean (group.map (fun s => (s.abs_error : ℚ))) }

/-! ## Histogram (source lines 51–79)

The Python code computes `val_int = int(round(val))` — `round` is
round-half-to-even — and then files `val_int` under the label
`"<=MIN"` when `val_int <= min_bucket`, `">=+MAX"` when
`val_int >= max_bucket`, and the exact-integer label otherwise.
`Bucket` is the label space (the three label formats are injective into
it); `histogram` maps a bucket to its count, mirroring the `counts`
dictionary.  The source receives the boundary list
`buckets = [min_bucket, ..., max_bucket]` and uses only `buckets[0]`
and `buckets[-1]`, which are the two parameters here. -/

/-- Python `int(round(q))`: round half to even. -/
def pyRound (q : ℚ) : Int :=
  if q - ⌊q⌋ < 1/2 then ⌊q⌋
  else if 1/2 < q - ⌊q⌋ then ⌊q⌋ + 1
  else if ⌊q⌋ % 2 = 0 then ⌊q⌋ else ⌊q⌋ + 1

/-- Histogram bucket labels: `low` is the `"<=MIN"` label, `high` the
`">=+MAX"` label, `mid v` the exact-integer label for `v`. -/
inductive Bucket where
  | low : Bucket
  | mid : Int → Bucket
  | high : Bucket
deriving DecidableEq

/-- Which bucket one value falls into (the body of the loop at source
lines 65–78). -/
def bucketOf (min_bucket max_bucket : Int) (val : ℚ) : Bucket :=
  let val_int := pyRound val
  if val_int ≤ min_bucket then .low
  else if max_bucket ≤ val_int then .high
  else .mid val_int

/-- The count the `counts` dictionary holds for bucket `b` after the
loop (absent key ⇒ 0, as with `defaultdict(int)`). -/
def histogram (values : List ℚ) (min_bucket max_bucket : Int) (b : Bucket) : Nat :=
  values.countP (fun v => bucketOf min_bucket max_bucket v == b)

/-! ## `groupby` (source lines 82–88)

`groupby` loops over the items appending each to `groups[key(item)]` of
a `defaultdict(list)`.  A Python dict is modelled as an association
list in key-insertion order; `updateGroup` is one loop iteration and
`getGroup` is dictionary lookup (`[]` for an absent key, as the
defaultdict would produce). -/

/-- Append `a` to the group of key `k`, creating the group (at the end,
matching dict insertion order) if the key is new. -/
def updateGroup {κ α : Type} [DecidableEq κ] :
    List (κ × List α) → κ → α → List (κ × List α)
  | [], k, a => [(k, [a])]
  | (k', l) :: rest, k, a =>
    if k' = k then (k', l ++ [a]) :: rest else (k', l) :: updateGroup rest k a

/-- Dictionary lookup; `[]` when the key is absent. -/
def getGroup {κ α : Type} [DecidableEq κ] : List (κ × List α) → κ → List α
  | [], _ => []
  | (k', l) :: rest, k => if k' = k then l else getGroup rest k

/-- `groupby(items, key_func)`. -/
def groupby {κ α : Type} [DecidableEq κ] (items : List α) (key_func : α → κ) :
    List (κ × List α) :=
  items.foldl (fun gs it => updateGroup gs (key_func it) it) []

/-- Total number of items held across all groups (what the calibration
table's per-row `Count` column sums to). -/
def totalLen {κ α : Type} (gs : List (κ × List α)) : Nat :=
  (gs.map (fun p => p.2.length)).sum

/-! ## Sample extraction (source lines 202–307) -/

/-- The fallback loop at source lines 256–260: state is
`(highest_bid, highest_bidder_seat)`, started at `(-1, None)`; a
non-absent bid strictly greater than the running maximum takes over. -/
def fhbAux (seat : Nat) (highest_bid : Int) (hbs : Option Nat) :
    List (Option Int) → Int × Option Nat
  | [] => (highest_bid, hbs)
  | ob :: rest =>
    match ob with
    | some b =>
      if highest_bid < b then fhbAux (seat + 1) b (some seat) rest
      else fhbAux (seat + 1) highest_bid hbs rest
    | none => fhbAux (seat + 1) highest_bid hbs rest

/-- Result of the fallback scan over the round's `bids`. -/
def find_highest_bidder (bids : List (Option Int)) : Option Nat :=
  (fhbAux 0 (-1) none bids).2

/-- Lines 253–260: `trump_selector` when present, otherwise the bid
scan (whose seat counter, produced by `enumerate`, is cast to `Int` for
the later comparison against `seat`). -/
def inferred_highest_bidder (r : Round) : Option Int :=
  match r.trump_selector with
  | some t => some t
  | none => (find_highest_bidder (r.bids.getD [])).map (fun s => (s : Int))

/-- The sample dict built for one `bid_accuracy` entry (lines 262–298).
`hbs` is the round's already-inferred highest bidder seat. -/
def mkSample (ai_types : List String) (gid : Nat) (round_idx : Nat)
    (r : Round) (hbs : Option Int) (ba : BidAcc) : BidSample :=
  let seat := ba.seat.getD 0
  let bid := ba.bid.getD 0
  let actual_tricks := ba.tricks.getD 0
  let error := actual_tricks - bid
  { ai_type := if seat < ai_types.length then ai_types.getD seat "unknown" else "unknown"
    game_id := gid
    round_index := round_idx
    hand_size := r.hand_size.getD 0
    seat := seat
    bid := bid
    actual_tricks := actual_tricks
    error := error
    abs_error := |error|
    trump := r.trump
    dealer := r.dealer
    highest_bidder := hbs.map (fun h => (seat : Int) == h)
    chose_trump := r.trump_selector.map (fun t => (seat : Int) == t)
    exact := ba.exact.getD false
    round_score :=
      if seat < (r.scores.getD []).length
      then (r.scores.getD [0, 0, 0, 0]).getD seat 0 else 0 }

/-- All bid samples of one round. -/
def round_samples (ai_types : List String) (gid : Nat) (round_idx : Nat)
    (r : Round) : List BidSample :=
  (r.bid_accuracy.getD []).map (mkSample ai_types gid round_idx r (inferred_highest_bidder r))

/-- The `for round_idx, round_data in enumerate(game.get('rounds', []))`
loop, with its running index. -/
def roundsAux (ai_types : List String) (gid : Nat) (round_idx : Nat) :
    List Round → List BidSample
  | [] => []
  | r :: rest =>
    round_samples ai_types gid round_idx r ++ roundsAux ai_types gid (round_idx + 1) rest

/-- All bid samples extracted from one game's rounds. -/
def gameBidSamples (ai_types : List String) (gid : Nat) (rounds : List Round) :
    List BidSample :=
  roundsAux ai_types gid 0 rounds

/-- Direct dict access `d[k]`: `KeyError` when the key is absent. -/
def req {α : Type} (o : Option α) (e : String) : Except String α :=
  match o with
  | some a => .ok a
  | none => .error e

/-- The `for seat, ai_type in enumerate(ai_types)` loop (lines 228–240):
each seat reads `final_scores[seat]` with direct indexing, which raises
`IndexError` when `final_scores` is too short. -/
def gameSamplesAux (gid : Nat) (winner : Int) (final_scores : List Int) :
    Nat → List String → Except String (List GameSample)
  | _, [] => .ok []
  | seat, ai_type :: rest =>
    match final_scores.get? seat with
    | none => .error "IndexError: final_scores"
    | some sc => do
      let tail ← gameSamplesAux gid winner final_scores (seat + 1) rest
      return { ai_type := ai_type, game_id := gid, seat := seat,
               won := ((seat : Int) == winner), final_score := sc } :: tail

/-- `validate_game_structure` (source lines 180–199). -/
def validate_game_structure (g : Game) : Bool :=
  g.game_id.isSome && g.config.isSome && g.result.isSome && g.rounds.isSome &&
  (match g.config with | some c => c.ai_types.isSome | none => false) &&
  (match g.result with | some r => r.winner.isSome | none => false)

/-- The per-game body of `collect_samples` (lines 222–298): the direct
accesses `game['game_id']`, `game['result']['winner']`,
`game['config']['ai_types']` and `game['result']['final_scores']`, the
game-sample loop, then the bid-sample loop over `game.get('rounds', [])`.
The `win_stats`/`bid_accuracy`/`scores` running aggregates (all
`defaultdict`s that cannot raise and that no claim concerns) are not
modelled; the report sections under claim recompute from the samples. -/
def collectGame (g : Game) : Except String (List BidSample × List GameSample) := do
  let gid ← req g.game_id "KeyError: game_id"
  let res ← req g.result "KeyError: result"
  let winner ← req res.winner "KeyError: winner"
  let cfg ← req g.config "KeyError: config"
  let ai_types ← req cfg.ai_types "KeyError: ai_types"
  let final_scores ← req res.final_scores "KeyError: final_scores"
  let gss ← gameSamplesAux gid winner final_scores 0 ai_types
  return (gameBidSamples ai_types gid (g.rounds.getD []), gss)

/-- `collect_samples` over a list of games: invalid games are skipped
with a warning; the rest accumulate, and any raise aborts the whole
call (as an uncaught Python exception would). -/
def collect_samples (games : List Game) :
    Except String (List BidSample × List GameSample) :=
  games.foldlM
    (fun acc g =>
      if validate_game_structure g then do
        let (bs, gs) ← collectGame g
        return (acc.1 ++ bs, acc.2 ++ gs)
      else return acc)
    ([], [])

/-- The win rate printed by `print_score_metrics` (lines 600–607):
samples of the agent type, wins among them, `wins / total * 100`
guarded against an empty list. -/
def win_rate (ai_type : String) (game_samples : List GameSample) : ℚ :=
  let games := game_samples.filter (fun g => g.ai_type == ai_type)
  let wins := (games.filter (fun g => g.won)).length
  let total := games.length
  if 0 < total then (wins : ℚ) / (total : ℚ) * 100 else 0

/-- The auction-dynamics partition for one agent type's samples
(source lines 524–534): prefer `highest_bidder` when any sample has it
non-`None`, else fall back to `chose_trump`, else skip (`none`).
Python truthiness of an optional bool (`None` and `False` both falsy)
is `Option.getD false`. -/
def auction_split (samples : List BidSample) :
    Option (List BidSample × List BidSample) :=
  if samples.any (fun s => s.highest_bidder.isSome) then
    some (samples.filter (fun s => s.highest_bidder.getD false),
          samples.filter (fun s => !(s.highest_bidder.getD false)))
  else if samples.any (fun s => s.chose_trump.isSome) then
    some (samples.filter (fun s => s.chose_trump.getD false),
          samples.filter (fun s => !(s.chose_trump.getD false)))
  else none

/-- The fields of one CSV row written by `export_to_csv`
(lines 676–685), in column order.  `trump` uses `s.get('trump') or ''`
(absent ⇒ empty string), the three flags use Python truthiness
(`'1' if value else '0'`). -/
def csvRow (s : BidSample) : List String :=
  [s.ai_type, toString s.game_id, toString s.round_index, toString s.hand_size,
   toString s.seat, toString s.bid, toString s.actual_tricks, toString s.error,
   toString s.abs_error, s.trump.getD "",
   if s.highest_bidder.getD false then "1" else "0",
   if s.chose_trump.getD false then "1" else "0",
   toString s.round_score,
   if s.exact then "1" else "0"]

/-! ## Concrete fixtures

Small concrete records used by the witness and counterexample theorems
below; they stand for inputs the Loader/Validator can hand to the code
(none of them is a translation of source code). -/

/-- A round whose single `bid_accuracy` entry reports `bid = 2`,
`tricks = 2` but `exact = false`: a structurally legal record whose
`exact` flag disagrees with its own bid/tricks numbers. -/
def rBad : Round :=
  { hand_size := some 5, dealer := none, trump := none, trump_selector := none,
    bids := some [some 2], tricks_won := some [2],
    bid_accuracy := some [{ seat := some 0, bid := some 2, tricks := some 2,
                            exact := some false, underbid := none, overbid := none }],
    scores := none }

/-- The bid samples the extractor produces from `rBad`. -/
def badSamples : List BidSample := gameBidSamples ["A"] 0 [rBad]

/-- The single sample extracted from `rBad`, written out. -/
def sBad : BidSample :=
  { ai_type := "A", game_id := 0, round_index := 0, hand_size := 5, seat := 0,
    bid := 2, actual_tricks := 2, error := 0, abs_error := 0, trump := none,
    dealer := none, highest_bidder := some true, chose_trump := none,
    exact := false, round_score := 0 }

/-- A game that passes `validate_game_structure` but whose `result`
lacks `final_scores`. -/
def gNoScores : Game :=
  { game_id := some 7,
    config := some { ai_types := some ["A", "A", "A", "A"] },
    result := some { winner := some 0, final_scores := none },
    rounds := some [] }

/-- The spec scenario round: `bids = [3, None, 5, 2]`,
`trump_selector = None`. -/
def rScen : Round :=
  { hand_size := some 13, dealer := some 0, trump := some "Hearts",
    trump_selector := none, bids := some [some 3, none, some 5, some 2],
    tricks_won := none, bid_accuracy := none, scores := none }

/-- A round with a recorded `trump_selector`. -/
def rSel : Round :=
  { hand_size := some 13, dealer := some 0, trump := some "Hearts",
    trump_selector := some 1, bids := some [some 3, none, some 5, some 2],
    tricks_won := none, bid_accuracy := none, scores := none }

/-- A round whose only non-absent bid is negative. -/
def rNeg : Round :=
  { hand_size := some 1, dealer := none, trump := none, trump_selector := none,
    bids := some [some (-2), none, none, none], tricks_won := none,
    bid_accuracy := none, scores := none }

/-- Game-sample fixture builder: agent type `"A"`, score 0. -/
def gsEx (seat : Nat) (won : Bool) (gid : Nat) : GameSample :=
  { ai_type := "A", game_id := gid, seat := seat, won := won, final_score := 0 }

/-- Ten game samples of one agent type, one seat per game, covering all
four seats across the ten games, with exactly three wins. -/
def gs10 : List GameSample :=
  [gsEx 0 true 0, gsEx 1 true 1, gsEx 2 true 2, gsEx 3 false 3,
   gsEx 0 false 4, gsEx 1 false 5, gsEx 2 false 6, gsEx 3 false 7,
   gsEx 0 false 8, gsEx 1 false 9]

/-- A consistent round: bid 4, tricks 4, `exact` flag set. -/
def rGood : Round :=
  { hand_size := some 7, dealer := none, trump := none, trump_selector := none,
    bids := some [some 4], tricks_won := some [4],
    bid_accuracy := some [{ seat := some 0, bid := some 4, tricks := some 4,
                            exact := some true, underbid := none, overbid := none }],
    scores := none }

/-- The single sample extracted from `rGood`, written out. -/
def sGood : BidSample :=
  { ai_type := "A", game_id := 0, round_index := 0, hand_size := 7, seat := 0,
    bid := 4, actual_tricks := 4, error := 0, abs_error := 0, trump := none,
    dealer := none, highest_bidder := some true, chose_trump := none,
    exact := true, round_score := 0 }

/-- Bid-sample fixture builder: only the auction/CSV-relevant fields
vary. -/
def bsEx (hb ct : Option Bool) : BidSample :=
  { ai_type := "A", game_id := 0, round_index := 0, hand_size := 5, seat := 0,
    bid := 2, actual_tricks := 3, error := 1, abs_error := 1, trump := none,
    dealer := none, highest_bidder := hb, chose_trump := ct, exact := false,
    round_score := 0 }

/-! ## Theorems -/

/-- C7: trump normalization is idempotent, sends absence/null and the
two alternate spellings to the canonical label `"No Trumps"`, and
leaves every other value unchanged. -/
theorem normalize_trump_canonical :
    (∀ t : Option String, normalize_trump (some (normalize_trump t)) = normalize_trump t)
    ∧ normalize_trump none = "No Trumps"
    ∧ normalize_trump (some "NoTrumps") = "No Trumps"
    ∧ normalize_trump (some "NO_TRUMPS") = "No Trumps"
    ∧ (∀ s : String, s ≠ "NoTrumps" → s ≠ "NO_TRUMPS" → normalize_trump (some s) = s) := by
  have hcanon : normalize_trump (some "No Trumps") = "No Trumps" := by decide
  refine ⟨?_, rfl, by decide, by decide, ?_⟩
  · intro t
    match t with
    | none => simpa using hcanon
    | some s =>
      by_cases h : s = "NoTrumps" ∨ s = "NO_TRUMPS"
      · rw [show normalize_trump (some s) = "No Trumps" from by simp [normalize_trump, h]]
        exact hcanon
      · have hs : normalize_trump (some s) = s := by simp [normalize_trump, h]
        rw [hs]
        exact hs
  · intro s h1 h2
    simp [normalize_trump, h1, h2]

/-- C7 witness: the theorem applied at concrete labels. -/
theorem normalize_trump_canonical_witness :
    normalize_trump (some "Hearts") = "Hearts"
    ∧ normalize_trump (some (normalize_trump (some "NO_TRUMPS")))
      = normalize_trump (some "NO_TRUMPS") :=
  ⟨normalize_trump_canonical.2.2.2.2 "Hearts" (by decide) (by decide),
   normalize_trump_canonical.1 (some "NO_TRUMPS")⟩

/-- C10: in the CSV export, the highest-bidder and chose-trump columns
(indices 10 and 11) are `"1"` exactly when the field is `some true` and
`"0"` otherwise; a sample with an unknown (`none`) flag is written
identically to one with the flag known `false`; an absent trump
(column 9) is written as the empty string. -/
theorem csv_export_flags (s : BidSample) :
    (csvRow s).get? 10 = some (if s.highest_bidder = some true then "1" else "0")
    ∧ (csvRow s).get? 11 = some (if s.chose_trump = some true then "1" else "0")
    ∧ (s.highest_bidder = none →
        csvRow s = csvRow { s with highest_bidder := some false })
    ∧ (s.chose_trump = none →
        csvRow s = csvRow { s with chose_trump := some false })
    ∧ (s.trump = none → (csvRow s).get? 9 = some "") := by
  refine ⟨?_, ?_, ?_, ?_, ?_⟩
  · rcases hb : s.highest_bidder with _ | b
    · simp [csvRow, hb]
    · cases b <;> simp [csvRow, hb]
  · rcases hc : s.chose_trump with _ | b
    · simp [csvRow, hc]
    · cases b <;> simp [csvRow, hc]
  · intro h; simp [csvRow, h]
  · intro h; simp [csvRow, h]
  · intro h; simp [csvRow, h]

/-- C10 witness: a sample with both flags unknown exports `"0"`s, the
same row as the known-false sample, and an empty trump column. -/
theorem csv_export_flags_witness :
    (csvRow (bsEx none none)).get? 10 = some "0"
    ∧ csvRow (bsEx none none) = csvRow { bsEx none none with highest_bidder := some false }
    ∧ (csvRow (bsEx none none)).get? 9 = some "" := by
  refine ⟨?_, ?_, ?_⟩
  · have h := (csv_export_flags (bsEx none none)).1
    simpa using h
  · exact (csv_export_flags (bsEx none none)).2.2.1 rfl
  · exact (csv_export_flags (bsEx none none)).2.2.2.2 rfl

/-- C1: the score-metrics win rate for an agent type with ten game
samples (seat-assignments) across the batch, covering all four seats,
three of them won, is 30%.  (In `print_score_metrics` the denominator
is the number of game samples of that type — one per game the type
plays a seat in — so "present at all 4 seats across 10 games, winning
3" realises as ten samples with three wins.) -/
theorem score_metrics_win_rate (ai_type : String) (gss : List GameSample)
    (htotal : (gss.filter (fun g => g.ai_type == ai_type)).length = 10)
    (hwins : ((gss.filter (fun g => g.ai_type == ai_type)).filter (fun g => g.won)).length = 3)
    (_hseats : ∀ st ∈ [0, 1, 2, 3],
       ∃ g ∈ gss.filter (fun gs => gs.ai_type == ai_type), g.seat = st) :
    win_rate ai_type gss = 30 := by
  simp only [win_rate, htotal, hwins]
  norm_num

/-- C1 witness: the concrete ten-game batch `gs10`. -/
theorem score_metrics_win_rate_witness : win_rate "A" gs10 = 30 :=
  score_metrics_win_rate "A" gs10 (by decide) (by decide) (by decide)

/-- One `groupby` loop iteration changes exactly the touched key's
group, appending the item to it. -/
theorem getGroup_updateGroup {κ α : Type} [DecidableEq κ]
    (gs : List (κ × List α)) (k k' : κ) (a : α) :
    getGroup (updateGroup gs k a) k'
    = if k' = k then getGroup gs k ++ [a] else getGroup gs k' := by
  induction gs with
  | nil =>
    by_cases h : k' = k
    · subst h
      simp [updateGroup, getGroup]
    · simp [updateGroup, getGroup, h, Ne.symm h]
  | cons p rest ih =>
    obtain ⟨k0, l0⟩ := p
    by_cases h0 : k0 = k
    · subst h0
      by_cases h : k' = k0
      · subst h
        simp [updateGroup, getGroup]
      · simp [updateGroup, getGroup, h, Ne.symm h]
    · by_cases h : k' = k
      · subst h
        simp [updateGroup, getGroup, h0, ih]
      · by_cases h1 : k0 = k'
        · subst h1
          simp [updateGroup, getGroup, h0, h]
        · simp [updateGroup, getGroup, h0, h1, ih, h]

/-- The `groupby` fold, started from any dictionary, extends each
key's group by the matching items in order. -/
theorem getGroup_groupby_fold {κ α : Type} [DecidableEq κ] (key_func : α → κ)
    (items : List α) (gs : List (κ × List α)) (k : κ) :
    getGroup (items.foldl (fun g it => updateGroup g (key_func it) it) gs) k
    = getGroup gs k ++ items.filter (fun a => decide (key_func a = k)) := by
  induction items generalizing gs with
  | nil => simp
  | cons a rest ih =>
    rw [List.foldl_cons, ih, getGroup_updateGroup, List.filter_cons]
    by_cases h : key_func a = k
    · simp [h, List.append_assoc]
    · simp [h, Ne.symm h]

/-- One `groupby` loop iteration grows the total held count by one. -/
theorem totalLen_updateGroup {κ α : Type} [DecidableEq κ]
    (gs : List (κ × List α)) (k : κ) (a : α) :
    totalLen (updateGroup gs k a) = totalLen gs + 1 := by
  induction gs with
  | nil => simp [updateGroup, totalLen]
  | cons p rest ih =>
    obtain ⟨k0, l0⟩ := p
    simp only [totalLen] at ih ⊢
    by_cases h : k0 = k
    · simp [updateGroup, h]
      omega
    · simp [updateGroup, h]
      omega

/-- The `groupby` fold grows the total held count by the number of
items folded in. -/
theorem totalLen_groupby_fold {κ α : Type} [DecidableEq κ] (key_func : α → κ)
    (items : List α) (gs : List (κ × List α)) :
    totalLen (items.foldl (fun g it => updateGroup g (key_func it) it) gs)
    = totalLen gs + items.length := by
  induction items generalizing gs with
  | nil => simp
  | cons a rest ih =>
    rw [List.foldl_cons, ih, totalLen_updateGroup, List.length_cons]
    omega

/-- C8: `groupby` partitions its input exhaustively and disjointly —
each key's group is exactly the matching items in order, every item
lands in the group of its own key and in no other — and the group sizes
sum back to the input size; consequently the per-bid row counts of a
calibration table (`print_calibration_table` groups by `s['bid']`) sum
to the sample count of the group it was built from. -/
theorem groupby_partition {κ α : Type} [DecidableEq κ]
    (items : List α) (key_func : α → κ) :
    (∀ k, getGroup (groupby items key_func) k
          = items.filter (fun a => decide (key_func a = k)))
    ∧ (∀ a, a ∈ items → a ∈ getGroup (groupby items key_func) (key_func a))
    ∧ (∀ a k, a ∈ getGroup (groupby items key_func) k → a ∈ items ∧ key_func a = k)
    ∧ totalLen (groupby items key_func) = items.length
    ∧ (∀ samples : List BidSample,
        totalLen (groupby samples (fun s => s.bid)) = samples.length) := by
  have hget : ∀ k, getGroup (groupby items key_func) k
      = items.filter (fun a => decide (key_func a = k)) := by
    intro k
    rw [groupby, getGroup_groupby_fold]
    simp [getGroup]
  refine ⟨hget, ?_, ?_, ?_, ?_⟩
  · intro a ha
    rw [hget]
    simp [List.mem_filter, ha]
  · intro a k ha
    rw [hget] at ha
    simpa [List.mem_filter] using ha
  · rw [groupby, totalLen_groupby_fold]
    simp [totalLen]
  · intro samples
    rw [groupby, totalLen_groupby_fold]
    simp [totalLen]

/-- C8 witness: a concrete partition by parity, and a concrete
calibration-table count over extractor output. -/
theorem groupby_partition_witness :
    (1 ∈ getGroup (groupby [1, 2, 3] (fun n : Nat => n % 2)) (1 % 2))
    ∧ totalLen (groupby [1, 2, 3] (fun n : Nat => n % 2)) = 3
    ∧ totalLen (groupby badSamples (fun s => s.bid)) = badSamples.length :=
  ⟨(groupby_partition [1, 2, 3] (fun n : Nat => n % 2)).2.1 1 (by decide),
   (groupby_partition [1, 2, 3] (fun n : Nat => n % 2)).2.2.2.1,
   (groupby_partition ([] : List Nat) (fun n : Nat => n)).2.2.2.2 badSamples⟩

/-- A sample in a round's output comes from one of its `bid_accuracy`
entries via `mkSample`. -/
theorem mem_round_samples {s : BidSample} (ai_types : List String) (gid ridx : Nat)
    (r : Round) (hs : s ∈ round_samples ai_types gid ridx r) :
    ∃ ba ∈ r.bid_accuracy.getD [],
      s = mkSample ai_types gid ridx r (inferred_highest_bidder r) ba := by
  obtain ⟨ba, hba, hmk⟩ := List.mem_map.1 hs
  exact ⟨ba, hba, hmk.symm⟩

/-- A sample extracted from a game comes from one of its rounds. -/
theorem mem_roundsAux {s : BidSample} (ai_types : List String) (gid : Nat) :
    ∀ (rounds : List Round) (i : Nat), s ∈ roundsAux ai_types gid i rounds →
      ∃ r ∈ rounds, ∃ j, s ∈ round_samples ai_types gid j r := by
  intro rounds
  induction rounds with
  | nil =>
    intro i h
    simp [roundsAux] at h
  | cons r rest ih =>
    intro i h
    rcases List.mem_append.1 (by simpa [roundsAux] using h) with hl | hr
    · exact ⟨r, by simp, i, hl⟩
    · obtain ⟨r2, hr2, j, hj⟩ := ih (i + 1) hr
      exact ⟨r2, by simp [hr2], j, hj⟩

/-- Among samples whose `exact` flag agrees with `error == 0`, the
exact/over/under counts of `calculate_bid_stats` partition the group. -/
theorem exact_over_under_count (group : List BidSample)
    (h : ∀ s ∈ group, s.exact = true ↔ s.error = 0) :
    (group.filter (fun s => s.exact)).length
    + (group.filter (fun s => decide (s.error < 0))).length
    + (group.filter (fun s => decide (s.error > 0))).length = group.length := by
  induction group with
  | nil => simp
  | cons s rest ih =>
    have hs := h s (by simp)
    have hrest := ih (fun t ht => h t (by simp [ht]))
    rcases lt_trichotomy s.error 0 with hlt | heq | hgt
    · have hex : s.exact = false := by
        rcases hb : s.exact with _ | _
        · rfl
        · exact absurd (hs.1 hb) (by omega)
      simp only [List.filter_cons, hex, hlt, List.length_cons]
      rw [if_neg (by simp), if_pos (by simp [hlt]), if_neg (by simp; omega)]
      simp only [List.length_cons]
      omega
    · have hex : s.exact = true := hs.2 heq
      simp only [List.filter_cons, List.length_cons]
      rw [if_pos (by simp [hex]), if_neg (by simp [heq]), if_neg (by simp [heq])]
      simp only [List.length_cons]
      omega
    · have hex : s.exact = false := by
        rcases hb : s.exact with _ | _
        · rfl
        · exact absurd (hs.1 hb) (by omega)
      simp only [List.filter_cons, List.length_cons]
      rw [if_neg (by simp [hex]), if_neg (by simp; omega), if_pos (by simp [hgt])]
      simp only [List.length_cons]
      omega

/-- C2 (amended): for a non-empty group in which each sample's stored
`exact` flag does hold exactly when its `error` is zero — which is how
every sample produced from a consistent record looks — the three
percentages of `calculate_bid_stats` sum to 100.  (The code counts
`exact` by the stored flag, `over`/`under` by the sign of `error`, so
the flag/error agreement is what makes the three counts a partition.) -/
theorem bid_stats_pct_sum (group : List BidSample) (hne : group ≠ [])
    (hcons : ∀ s ∈ group, s.exact = true ↔ s.error = 0) :
    (calculate_bid_stats group).exact_pct + (calculate_bid_stats group).over_pct
    + (calculate_bid_stats group).under_pct = 100 := by
  have hn : 0 < group.length := List.length_pos.2 hne
  have hcount := exact_over_under_count group hcons
  have hq : ((group.filter (fun s => s.exact)).length : ℚ)
      + ((group.filter (fun s => decide (s.error < 0))).length : ℚ)
      + ((group.filter (fun s => decide (s.error > 0))).length : ℚ)
      = (group.length : ℚ) := by
    exact_mod_cast congrArg (fun n : Nat => (n : ℚ)) hcount
  have hnq : (group.length : ℚ) ≠ 0 := by
    exact_mod_cast hn.ne'
  simp only [calculate_bid_stats, if_pos hn]
  field_simp
  linarith [hq]

/-- C2 counterexample: the claim as stated fails on extractor output.
`badSamples` is the extractor's own output for a validated game whose
round reports `bid = 2`, `tricks = 2`, `exact = false`: its one sample
has `error = 0` but a false `exact` flag, so none of the three counts
covers it and the percentages sum to 0, not 100. -/
theorem bid_stats_pct_sum_counterexample :
    badSamples ≠ []
    ∧ (calculate_bid_stats badSamples).exact_pct
      + (calculate_bid_stats badSamples).over_pct
      + (calculate_bid_stats badSamples).under_pct ≠ 100 := by
  have hbs : badSamples = [sBad] := by decide
  constructor
  · rw [hbs]
    simp
  · rw [hbs]
    norm_num [calculate_bid_stats, sBad, List.filter]

/-- C2 witness: a two-sample consistent group (one exact, one underbid)
sums to 100. -/
theorem bid_stats_pct_sum_witness :
    (calculate_bid_stats [{ sBad with exact := true }, bsEx none none]).exact_pct
    + (calculate_bid_stats [{ sBad with exact := true }, bsEx none none]).over_pct
    + (calculate_bid_stats [{ sBad with exact := true }, bsEx none none]).under_pct
    = 100 :=
  bid_stats_pct_sum [{ sBad with exact := true }, bsEx none none]
    (by decide) (by decide)

/-- C3 (amended): every sample the extractor produces satisfies
`error = actual_tricks - bid` and `abs_error = |error|`; its `exact`
field is the record's own `exact` flag (`false` when absent), so
`exact ⇔ error == 0` holds whenever that flag agrees with the record's
`bid`/`tricks` numbers (the code never derives `exact` from `error`). -/
theorem bid_sample_invariants (ai_types : List String) (gid : Nat) (rounds : List Round)
    (hcons : ∀ r ∈ rounds, ∀ ba ∈ r.bid_accuracy.getD [],
       (ba.exact.getD false = true ↔ ba.tricks.getD 0 = ba.bid.getD 0)) :
    ∀ s ∈ gameBidSamples ai_types gid rounds,
      s.error = s.actual_tricks - s.bid
      ∧ s.abs_error = |s.error|
      ∧ (s.exact = true ↔ s.error = 0) := by
  intro s hs
  obtain ⟨r, hr, j, hsr⟩ := mem_roundsAux ai_types gid rounds 0 hs
  obtain ⟨ba, hba, rfl⟩ := mem_round_samples ai_types gid j r hsr
  refine ⟨by simp [mkSample], by simp [mkSample], ?_⟩
  have hb := hcons r hr ba hba
  simp only [mkSample]
  constructor
  · intro hx
    have := hb.1 hx
    omega
  · intro hx
    exact hb.2 (by omega)

/-- C3 counterexample: the extractor's output for `rBad` is a single
sample with `error = 0` yet `exact = false` — the record's `exact` flag
is copied, not recomputed, so "exact ⇔ error == 0" fails as stated. -/
theorem bid_sample_invariants_counterexample :
    badSamples.map (fun s => (s.error, s.exact)) = [((0 : Int), false)] := by
  decide

/-- C3 witness: the sample extracted from the consistent round `rGood`
(bid 4, tricks 4, exact flag set) satisfies all three invariants. -/
theorem bid_sample_invariants_witness :
    sGood.error = sGood.actual_tricks - sGood.bid
    ∧ sGood.abs_error = |sGood.error|
    ∧ (sGood.exact = true ↔ sGood.error = 0) :=
  bid_sample_invariants ["A"] 0 [rGood] (by decide) sGood (by decide)

/-- The game-sample loop succeeds whenever `final_scores` reaches every
remaining seat. -/
theorem gameSamplesAux_isOk (gid : Nat) (winner : Int) (fs : List Int) :
    ∀ (ai_types : List String) (seat : Nat),
      seat + ai_types.length ≤ fs.length →
      (gameSamplesAux gid winner fs seat ai_types).isOk = true := by
  intro ai_types
  induction ai_types with
  | nil =>
    intro seat h
    simp [gameSamplesAux, Except.isOk, Except.toBool]
  | cons a rest ih =>
    intro seat h
    have hlt : seat < fs.length := by
      simp only [List.length_cons] at h
      omega
    obtain ⟨sc, hsc⟩ : ∃ sc, fs.get? seat = some sc :=
      ⟨fs.get ⟨seat, hlt⟩, List.get?_eq_get hlt⟩
    have hrec := ih (seat + 1) (by simp only [List.length_cons] at h; omega)
    simp only [gameSamplesAux, hsc]
    rcases hr : gameSamplesAux gid winner fs (seat + 1) rest with e | tail
    · rw [hr] at hrec
      simp [Except.isOk, Except.toBool] at hrec
    · simp [Except.isOk, Except.toBool, Except.bind, hr]

/-- C4 (amended): extraction of a validated game never raises provided
the game's `result.final_scores` is present and covers every seat of
`ai_types`; with that proviso, rounds are wholly defensive — any
missing or empty round field resolves to a default or an unknown
marker, whatever the `rounds` list contains, so one malformed round
cannot abort the rest.  (The proviso is forced: `final_scores` is not
checked by `validate_game_structure` yet is read with direct
indexing.) -/
theorem validated_extraction_total (g : Game) (res : GameResult) (cfg : GameConfig)
    (final_scores : List Int) (ai_types : List String)
    (hv : validate_game_structure g = true)
    (hres : g.result = some res)
    (hcfg : g.config = some cfg)
    (hats : cfg.ai_types = some ai_types)
    (hfs : res.final_scores = some final_scores)
    (hlen : ai_types.length ≤ final_scores.length) :
    (collectGame g).isOk = true := by
  simp only [validate_game_structure, hres, hcfg, hats, Bool.and_eq_true] at hv
  obtain ⟨⟨⟨⟨⟨hgid, _⟩, _⟩, _⟩, _⟩, hw⟩ := hv
  obtain ⟨gid, hgid2⟩ := Option.isSome_iff_exists.1 hgid
  obtain ⟨winner, hw2⟩ := Option.isSome_iff_exists.1 hw
  have hgsa := gameSamplesAux_isOk gid winner final_scores ai_types 0 (by omega)
  rcases hr : gameSamplesAux gid winner final_scores 0 ai_types with e | gss
  · rw [hr] at hgsa
    simp [Except.isOk, Except.toBool] at hgsa
  · simp [collectGame, req, hgid2, hres, hw2, hcfg, hats, hfs, hr, bind,
      Except.bind, Except.isOk, Except.toBool, Functor.map, Except.map,
      pure, Except.pure]

/-- C4 counterexample: `gNoScores` passes the validator but extraction
raises `KeyError` on the missing `result.final_scores` — the claim that
every field beyond the validated structure is resolved to a default is
false for result fields. -/
theorem validated_extraction_total_counterexample :
    validate_game_structure gNoScores = true
    ∧ collectGame gNoScores = .error "KeyError: final_scores" := by
  constructor
  · decide
  · rfl

/-- C4 witness: a validated game with full `final_scores` and a
garbage round (every optional field absent) extracts successfully. -/
theorem validated_extraction_total_witness :
    (collectGame
      { game_id := some 7,
        config := some { ai_types := some ["A", "B", "A", "B"] },
        result := some { winner := some 2, final_scores := some [10, 20, 30, 40] },
        rounds := some [{ hand_size := none, dealer := none, trump := none,
                          trump_selector := none, bids := none, tricks_won := none,
                          bid_accuracy := none, scores := none }] }).isOk = true :=
  validated_extraction_total _ _ _ [10, 20, 30, 40] ["A", "B", "A", "B"]
    (by decide) rfl rfl rfl rfl (by decide)

/-- The bid scan never updates past entries that cannot beat the
running maximum (in particular `(-1, None)` survives an all-absent or
all-nonpositive-below-threshold list). -/
theorem fhbAux_of_all_le (l : List (Option Int)) :
    ∀ (k : Nat) (hb : Int) (hbs : Option Nat),
      (∀ v : Int, some v ∈ l → v ≤ hb) →
      fhbAux k hb hbs l = (hb, hbs) := by
  induction l with
  | nil =>
    intro k hb hbs _
    rfl
  | cons ob rest ih =>
    intro k hb hbs h
    cases ob with
    | none =>
      simp only [fhbAux]
      exact ih (k + 1) hb hbs (fun v hv => h v (by simp [hv]))
    | some b =>
      have hble : b ≤ hb := h b (by simp)
      simp only [fhbAux, if_neg (not_lt.2 hble)]
      exact ih (k + 1) hb hbs (fun v hv => h v (by simp [hv]))

/-- When some non-absent bid beats the running maximum, the scan ends
on the first seat holding the greatest such bid. -/
theorem fhbAux_finds (l : List (Option Int)) :
    ∀ (k : Nat) (hb : Int) (hbs : Option Nat),
      (∃ v : Int, some v ∈ l ∧ hb < v) →
      ∃ (j : Nat) (m : Int),
        (fhbAux k hb hbs l).2 = some (k + j)
        ∧ l.get? j = some (some m)
        ∧ hb < m
        ∧ (∀ w : Int, some w ∈ l → w ≤ m)
        ∧ (∀ i, i < j → l.get? i ≠ some (some m)) := by
  induction l with
  | nil =>
    rintro k hb hbs ⟨v, hv, _⟩
    simp at hv
  | cons ob rest ih =>
    rintro k hb hbs ⟨v, hv, hlt⟩
    cases ob with
    | none =>
      have hvrest : some v ∈ rest := by
        rcases List.mem_cons.1 hv with h | h
        · exact absurd h.symm (by simp)
        · exact h
      obtain ⟨j, m, h1, h2, h3, h4, h5⟩ := ih (k + 1) hb hbs ⟨v, hvrest, hlt⟩
      refine ⟨j + 1, m, ?_, by simpa using h2, h3, ?_, ?_⟩
      · simp only [fhbAux]
        rw [h1]
        congr 1
        omega
      · intro w hw
        rcases List.mem_cons.1 hw with h | h
        · exact absurd h.symm (by simp)
        · exact h4 w h
      · intro i hi
        cases i with
        | zero => simp
        | succ i2 =>
          simp only [List.get?_cons_succ]
          exact h5 i2 (by omega)
    | some b =>
      by_cases hgt : hb < b
      · by_cases hrest : ∃ w : Int, some w ∈ rest ∧ b < w
        · obtain ⟨j, m, h1, h2, h3, h4, h5⟩ := ih (k + 1) b (some k) hrest
          refine ⟨j + 1, m, ?_, by simpa using h2, lt_trans hgt h3, ?_, ?_⟩
          · simp only [fhbAux, if_pos hgt]
            rw [h1]
            congr 1
            omega
          · intro w hw
            rcases List.mem_cons.1 hw with h | h
            · rw [Option.some.injEq] at h
              omega
            · exact h4 w h
          · intro i hi
            cases i with
            | zero =>
              simp only [List.get?_cons_zero, Ne, Option.some.injEq]
              intro hbm
              omega
            | succ i2 =>
              simp only [List.get?_cons_succ]
              exact h5 i2 (by omega)
        · push_neg at hrest
          refine ⟨0, b, ?_, by simp, hgt, ?_, by intro i hi; omega⟩
          · simp only [fhbAux, if_pos hgt]
            rw [fhbAux_of_all_le rest (k + 1) b (some k) hrest]
            simp
          · intro w hw
            rcases List.mem_cons.1 hw with h | h
            · rw [Option.some.injEq] at h
              omega
            · exact hrest w h
      · have hvrest : some v ∈ rest := by
          rcases List.mem_cons.1 hv with h | h
          · rw [Option.some.injEq] at h
            exfalso
            omega
          · exact h
        obtain ⟨j, m, h1, h2, h3, h4, h5⟩ := ih (k + 1) hb hbs ⟨v, hvrest, hlt⟩
        refine ⟨j + 1, m, ?_, by simpa using h2, h3, ?_, ?_⟩
        · simp only [fhbAux, if_neg hgt]
          rw [h1]
          congr 1
          omega
        · intro w hw
          rcases List.mem_cons.1 hw with h | h
          · rw [Option.some.injEq] at h
            omega
          · exact h4 w h
        · intro i hi
          cases i with
          | zero =>
            simp only [List.get?_cons_zero, Ne, Option.some.injEq]
            intro hbm
            omega
          | succ i2 =>
            simp only [List.get?_cons_succ]
            exact h5 i2 (by omega)

/-- C5 (amended): the inferred highest bidder is the round's
`trump_selector` when present; when absent it is the first seat holding
the greatest non-absent bid, *provided the non-absent bids are
nonnegative* (the scan's `-1` sentinel silently discards bids ≤ −1);
and when every seat's bid is absent the inference is unknown and every
sample of the round carries `highest_bidder = None` (and
`chose_trump = None`), not `false`. -/
theorem highest_bidder_inference (r : Round)
    (hnn : ∀ ob ∈ r.bids.getD [], ∀ v : Int, ob = some v → 0 ≤ v) :
    (∀ t, r.trump_selector = some t → inferred_highest_bidder r = some t)
    ∧ (r.trump_selector = none → (∃ ob ∈ r.bids.getD [], ob ≠ none) →
        ∃ (i : Nat) (m : Int),
          inferred_highest_bidder r = some (i : Int)
          ∧ (r.bids.getD []).get? i = some (some m)
          ∧ (∀ w : Int, some w ∈ r.bids.getD [] → w ≤ m)
          ∧ (∀ j, j < i → (r.bids.getD []).get? j ≠ some (some m)))
    ∧ (r.trump_selector = none → (∀ ob ∈ r.bids.getD [], ob = none) →
        inferred_highest_bidder r = none
        ∧ ∀ (ats : List String) (gid ridx : Nat), ∀ s ∈ round_samples ats gid ridx r,
            s.highest_bidder = none ∧ s.chose_trump = none) := by
  refine ⟨?_, ?_, ?_⟩
  · intro t ht
    simp [inferred_highest_bidder, ht]
  · intro hts hex
    obtain ⟨ob, hob, hne⟩ := hex
    obtain ⟨v, rfl⟩ := Option.ne_none_iff_exists'.1 hne
    have hv0 : 0 ≤ v := hnn _ hob v rfl
    obtain ⟨j, m, h1, h2, _, h4, h5⟩ :=
      fhbAux_finds (r.bids.getD []) 0 (-1) none ⟨v, hob, by omega⟩
    refine ⟨j, m, ?_, h2, h4, h5⟩
    simp only [inferred_highest_bidder, hts, find_highest_bidder]
    rw [show (0 : Nat) + j = j from by omega] at h1
    simp [h1]
  · intro hts hall
    have hnone : find_highest_bidder (r.bids.getD []) = none := by
      unfold find_highest_bidder
      rw [fhbAux_of_all_le (r.bids.getD []) 0 (-1) none
        (fun v hv => absurd (hall _ hv) (by simp))]
    refine ⟨by simp [inferred_highest_bidder, hts, hnone], ?_⟩
    intro ats gid ridx s hs
    obtain ⟨ba, _, rfl⟩ := mem_round_samples ats gid ridx r hs
    constructor
    · simp [mkSample, inferred_highest_bidder, hts, hnone]
    · simp [mkSample, hts]

/-- C5 counterexample: `rNeg` has `trump_selector = None` and a single
non-absent bid, `-2` at seat 0 — by the claim, seat 0 holds the
strictly greatest non-absent bid and should be the inferred highest
bidder — yet the code's `-1` sentinel rejects it and infers "unknown". -/
theorem highest_bidder_inference_counterexample :
    rNeg.trump_selector = none
    ∧ (rNeg.bids.getD []).get? 0 = some (some (-2))
    ∧ (∀ ob ∈ rNeg.bids.getD [], ob = some (-2) ∨ ob = none)
    ∧ inferred_highest_bidder rNeg = none := by
  refine ⟨rfl, rfl, by decide, ?_⟩
  decide

/-- C5 witness: the spec scenario `bids = [3, None, 5, 2]`,
`trump_selector = None` infers a seat (necessarily seat 2, bid 5) with
the first-maximum properties; and a recorded `trump_selector` is
reproduced verbatim. -/
theorem highest_bidder_inference_witness :
    (∃ (i : Nat) (m : Int),
      inferred_highest_bidder rScen = some (i : Int)
      ∧ (rScen.bids.getD []).get? i = some (some m)
      ∧ (∀ w : Int, some w ∈ rScen.bids.getD [] → w ≤ m)
      ∧ (∀ j, j < i → (rScen.bids.getD []).get? j ≠ some (some m)))
    ∧ inferred_highest_bidder rSel = some 1 :=
  ⟨(highest_bidder_inference rScen (by decide)).2.1 rfl ⟨some 3, by decide, by decide⟩,
   (highest_bidder_inference rSel (by decide)).1 1 rfl⟩

/-- `int(round(val))` lands on a nearest integer (ties go to the even
neighbour, which is still at distance exactly 1/2). -/
theorem pyRound_nearest (q : ℚ) : |q - (pyRound q : ℚ)| ≤ 1/2 := by
  have h1 : (⌊q⌋ : ℚ) ≤ q := Int.floor_le q
  have h2 : q < ⌊q⌋ + 1 := Int.lt_floor_add_one q
  unfold pyRound
  split_ifs with ha hb hc <;> rw [abs_le] <;> constructor <;> push_cast <;> linarith

/-- Each value contributes exactly one count across the low bucket, the
high bucket and the in-range integer buckets. -/
theorem bucket_indicator (min_bucket max_bucket : Int) (v : ℚ) :
    ((if bucketOf min_bucket max_bucket v == Bucket.low then 1 else 0) : Nat)
    + (if bucketOf min_bucket max_bucket v == Bucket.high then 1 else 0)
    + ∑ i in Finset.Icc (min_bucket + 1) (max_bucket - 1),
        (if bucketOf min_bucket max_bucket v == Bucket.mid i then 1 else 0) = 1 := by
  rcases hbv : bucketOf min_bucket max_bucket v with _ | w | _
  · simp [hbv]
  · have hw : min_bucket < w ∧ w < max_bucket := by
      simp only [bucketOf] at hbv
      split_ifs at hbv with hl hh
      rw [Bucket.mid.injEq] at hbv
      omega
    simp only [hbv, beq_iff_eq, reduceCtorEq, if_false]
    rw [show (∑ i in Finset.Icc (min_bucket + 1) (max_bucket - 1),
        (if Bucket.mid w = Bucket.mid i then 1 else 0) : Nat)
        = ∑ i in Finset.Icc (min_bucket + 1) (max_bucket - 1),
            (if w = i then 1 else 0) from by
      refine Finset.sum_congr rfl fun i _ => ?_
      simp [Bucket.mid.injEq]]
    rw [Finset.sum_ite_eq]
    rw [if_pos (Finset.mem_Icc.2 (by omega))]
  · simp [hbv]

/-- C6: each value is rounded to a nearest integer; post-rounding,
values at or below `min_bucket` go to the single low bucket, values at
or above `max_bucket` to the single high bucket, and every in-range
value to its own exact integer bucket; and the bucket counts always sum
to the number of input values, whatever the values. -/
theorem histogram_bucketing (values : List ℚ) (min_bucket max_bucket : Int)
    (hrange : min_bucket < max_bucket) :
    (∀ q : ℚ, |q - (pyRound q : ℚ)| ≤ 1/2)
    ∧ (∀ q : ℚ, pyRound q ≤ min_bucket → bucketOf min_bucket max_bucket q = .low)
    ∧ (∀ q : ℚ, max_bucket ≤ pyRound q → bucketOf min_bucket max_bucket q = .high)
    ∧ (∀ q : ℚ, min_bucket < pyRound q → pyRound q < max_bucket →
        bucketOf min_bucket max_bucket q = .mid (pyRound q))
    ∧ histogram values min_bucket max_bucket .low
      + histogram values min_bucket max_bucket .high
      + ∑ i in Finset.Icc (min_bucket + 1) (max_bucket - 1),
          histogram values min_bucket max_bucket (.mid i)
      = values.length := by
  refine ⟨pyRound_nearest, ?_, ?_, ?_, ?_⟩
  · intro q h
    simp [bucketOf, h]
  · intro q h
    simp only [bucketOf]
    rw [if_neg (by omega), if_pos h]
  · intro q h1 h2
    simp only [bucketOf]
    rw [if_neg (by omega), if_neg (by omega)]
  · induction values with
    | nil => simp [histogram]
    | cons v vs ih =>
      have hv := bucket_indicator min_bucket max_bucket v
      simp only [histogram, List.countP_cons, List.length_cons] at ih ⊢
      rw [Finset.sum_add_distrib]
      omega

/-- C6 witness: the spec scenario — values `[-8, -1, 0, 7]` over
buckets `[-6 .. 6]`: `-8` collapses into the low bucket, `7` into the
high bucket, `-1` and `0` keep their own buckets, and the counts sum
to 4. -/
theorem histogram_bucketing_witness :
    bucketOf (-6) 6 (-8) = .low
    ∧ bucketOf (-6) 6 7 = .high
    ∧ bucketOf (-6) 6 (-1) = .mid (-1)
    ∧ bucketOf (-6) 6 0 = .mid 0
    ∧ histogram [-8, -1, 0, 7] (-6) 6 .low + histogram [-8, -1, 0, 7] (-6) 6 .high
      + ∑ i in Finset.Icc (-6 + 1 : Int) (6 - 1 : Int),
          histogram [-8, -1, 0, 7] (-6) 6 (.mid i)
      = 4 := by
  have h := histogram_bucketing [-8, -1, 0, 7] (-6) 6 (by norm_num)
  refine ⟨?_, ?_, ?_, ?_, ?_⟩
  · refine h.2.1 (-8) ?_
    norm_num [pyRound]
  · refine h.2.2.1 7 ?_
    norm_num [pyRound]
  · have hm := h.2.2.2.1 (-1) (by norm_num [pyRound]) (by norm_num [pyRound])
    rw [hm]
    norm_num [pyRound]
  · have hm := h.2.2.2.1 0 (by norm_num [pyRound]) (by norm_num [pyRound])
    rw [hm]
    norm_num [pyRound]
  · simpa using h.2.2.2.2

/-- C9: the auction-dynamics section splits an agent type's samples
into "was highest bidder" / "was not" — a disjoint, exhaustive
two-group partition — preferring `highest_bidder` whenever any sample
knows it, falling back to `chose_trump` only when `highest_bidder` is
absent from every sample, skipping the agent type when both are absent
everywhere, and filing unknown-status samples under "was not highest
bidder" rather than dropping them. -/
theorem auction_dynamics_split (samples : List BidSample) :
    (∀ hb nhb, auction_split samples = some (hb, nhb) →
       ∀ s ∈ samples, (s ∈ hb ∧ s ∉ nhb) ∨ (s ∈ nhb ∧ s ∉ hb))
    ∧ ((∃ s ∈ samples, s.highest_bidder.isSome) →
        auction_split samples
        = some (samples.filter (fun s => s.highest_bidder.getD false),
                samples.filter (fun s => !(s.highest_bidder.getD false))))
    ∧ ((∀ s ∈ samples, s.highest_bidder = none) →
        (∃ s ∈ samples, s.chose_trump.isSome) →
        auction_split samples
        = some (samples.filter (fun s => s.chose_trump.getD false),
                samples.filter (fun s => !(s.chose_trump.getD false))))
    ∧ ((∀ s ∈ samples, s.highest_bidder = none ∧ s.chose_trump = none) →
        auction_split samples = none)
    ∧ (∀ hb nhb, auction_split samples = some (hb, nhb) →
        ∀ s ∈ samples, s.highest_bidder = none → s.chose_trump = none → s ∈ nhb) := by
  refine ⟨?_, ?_, ?_, ?_, ?_⟩
  · intro hb nhb heq s hs
    unfold auction_split at heq
    split_ifs at heq with h1 h2
    · rw [Option.some.injEq, Prod.mk.injEq] at heq
      obtain ⟨rfl, rfl⟩ := heq
      by_cases hp : s.highest_bidder.getD false
      · exact Or.inl ⟨List.mem_filter.2 ⟨hs, by simp [hp]⟩,
          fun hmem => by simpa [hp] using (List.mem_filter.1 hmem).2⟩
      · exact Or.inr ⟨List.mem_filter.2 ⟨hs, by simp [hp]⟩,
          fun hmem => by simpa [hp] using (List.mem_filter.1 hmem).2⟩
    · rw [Option.some.injEq, Prod.mk.injEq] at heq
      obtain ⟨rfl, rfl⟩ := heq
      by_cases hp : s.chose_trump.getD false
      · exact Or.inl ⟨List.mem_filter.2 ⟨hs, by simp [hp]⟩,
          fun hmem => by simpa [hp] using (List.mem_filter.1 hmem).2⟩
      · exact Or.inr ⟨List.mem_filter.2 ⟨hs, by simp [hp]⟩,
          fun hmem => by simpa [hp] using (List.mem_filter.1 hmem).2⟩
  · intro hex
    have h1 : samples.any (fun s => s.highest_bidder.isSome) = true :=
      List.any_eq_true.2 hex
    unfold auction_split
    rw [if_pos h1]
  · intro hall hex
    have h1 : samples.any (fun s => s.highest_bidder.isSome) = false := by
      rw [List.any_eq_false]
      intro s hs
      simp [hall s hs]
    have h2 : samples.any (fun s => s.chose_trump.isSome) = true :=
      List.any_eq_true.2 hex
    unfold auction_split
    rw [if_neg (by simp [h1]), if_pos h2]
  · intro hall
    have h1 : samples.any (fun s => s.highest_bidder.isSome) = false := by
      rw [List.any_eq_false]
      intro s hs
      simp [(hall s hs).1]
    have h2 : samples.any (fun s => s.chose_trump.isSome) = false := by
      rw [List.any_eq_false]
      intro s hs
      simp [(hall s hs).2]
    unfold auction_split
    rw [if_neg (by simp [h1]), if_neg (by simp [h2])]
  · intro hb nhb heq s hs hhb hct
    unfold auction_split at heq
    split_ifs at heq with h1 h2
    · rw [Option.some.injEq, Prod.mk.injEq] at heq
      rw [← heq.2]
      exact List.mem_filter.2 ⟨hs, by simp [hhb]⟩
    · rw [Option.some.injEq, Prod.mk.injEq] at heq
      rw [← heq.2]
      exact List.mem_filter.2 ⟨hs, by simp [hct]⟩

/-- C9 witness: a group where one sample knows `highest_bidder` splits
by that field, with the unknown-status sample filed under "was not";
a group with both fields absent everywhere is skipped. -/
theorem auction_dynamics_split_witness :
    auction_split [bsEx (some true) none, bsEx none none]
      = some ([bsEx (some true) none], [bsEx none none])
    ∧ bsEx none none ∈ ([bsEx none none] : List BidSample)
    ∧ auction_split [bsEx none none] = none := by
  refine ⟨?_, ?_, ?_⟩
  · have h := (auction_dynamics_split [bsEx (some true) none, bsEx none none]).2.1
      ⟨bsEx (some true) none, by decide, by decide⟩
    rw [h]
    decide
  · exact (auction_dynamics_split [bsEx (some true) none, bsEx none none]).2.2.2.2
      [bsEx (some true) none] [bsEx none none] (by decide)
      (bsEx none none) (by decide) rfl rfl
  · exact (auction_dynamics_split [bsEx none none]).2.2.2.1
      (by intro s hs; constructor <;> (rcases (by simpa using hs : s = bsEx none none) with rfl; rfl))

end AnalyzeResults
